import Mathlib

/-!
Shallow embedding of the hashing layer (crypto/src/hash) and the constraint
evaluator (verifier/src/evaluator.rs) of the winterfell verifier core, with
theorems checking the natural-language specification against the code.

Machine words are modelled as Nat with explicit reduction modulo 2^32 or
2^64 where the source performs wrapping arithmetic or casts; byte strings
are lists of Nat (each entry a byte value).
-/

set_option maxRecDepth 10000

-- ================================================================================================
-- BLAKE2s PRIMITIVE
-- ================================================================================================

/-- Mask for 32-bit words. -/
def MASK32 : Nat := 4294967295

/-- Addition of 32-bit words with wrap-around, as performed by the BLAKE2s mixing function. -/
def add32 (a b : Nat) : Nat := (a + b) % 4294967296

/-- Right rotation of a 32-bit word by n bits (0 < n < 32), on the Nat encoding. -/
def rotr32 (x n : Nat) : Nat := Nat.lor (x / 2 ^ n) (x % 2 ^ n * 2 ^ (32 - n))

/-- The BLAKE2s initialization vector (RFC 7693), the semantics of the external blake2 crate
used by crypto/src/hash/blake2s/mod.rs. -/
def blakeIV : List Nat :=
  [0x6A09E667, 0xBB67AE85, 0x3C6EF372, 0xA54FF53A,
   0x510E527F, 0x9B05688C, 0x1F83D9AB, 0x5BE0CD19]

/-- The BLAKE2s message schedule (RFC 7693), one permutation of 0..15 per round. -/
def blakeSigma : List (List Nat) :=
  [[0, 1, 2, 3, 4, 5, 6, 7, 8, 9, 10, 11, 12, 13, 14, 15],
   [14, 10, 4, 8, 9, 15, 13, 6, 1, 12, 0, 2, 11, 7, 5, 3],
   [11, 8, 12, 0, 5, 2, 15, 13, 10, 14, 3, 6, 7, 1, 9, 4],
   [7, 9, 3, 1, 13, 12, 11, 14, 2, 6, 5, 10, 4, 0, 15, 8],
   [9, 0, 5, 7, 2, 4, 10, 15, 14, 1, 11, 12, 6, 8, 3, 13],
   [2, 12, 6, 10, 0, 11, 8, 3, 4, 13, 7, 5, 15, 14, 1, 9],
   [12, 5, 1, 15, 14, 13, 4, 10, 0, 7, 6, 3, 9, 2, 8, 11],
   [13, 11, 7, 14, 12, 1, 3, 9, 5, 0, 15, 4, 8, 6, 2, 10],
   [6, 15, 14, 9, 11, 3, 0, 8, 12, 2, 13, 7, 1, 4, 10, 5],
   [10, 2, 8, 4, 7, 6, 1, 5, 15, 11, 9, 14, 3, 12, 13, 0]]

/-- The BLAKE2s G mixing function applied to state positions a, b, c, d with message
words at schedule positions si, sj. -/
def gMix (m : List Nat) (v : List Nat) (a b c d si sj : Nat) : List Nat :=
  let mx := m.getD si 0
  let my := m.getD sj 0
  let va := add32 (add32 (v.getD a 0) (v.getD b 0)) mx
  let vd := rotr32 (Nat.xor (v.getD d 0) va) 16
  let vc := add32 (v.getD c 0) vd
  let vb := rotr32 (Nat.xor (v.getD b 0) vc) 12
  let va2 := add32 (add32 va vb) my
  let vd2 := rotr32 (Nat.xor vd va2) 8
  let vc2 := add32 vc vd2
  let vb2 := rotr32 (Nat.xor vb vc2) 7
  (((v.set a va2).set b vb2).set c vc2).set d vd2

/-- One BLAKE2s round: four column mixes then four diagonal mixes, driven by one
row of the message schedule. -/
def blakeRound (m : List Nat) (v : List Nat) (s : List Nat) : List Nat :=
  let v1 := gMix m v 0 4 8 12 (s.getD 0 0) (s.getD 1 0)
  let v2 := gMix m v1 1 5 9 13 (s.getD 2 0) (s.getD 3 0)
  let v3 := gMix m v2 2 6 10 14 (s.getD 4 0) (s.getD 5 0)
  let v4 := gMix m v3 3 7 11 15 (s.getD 6 0) (s.getD 7 0)
  let v5 := gMix m v4 0 5 10 15 (s.getD 8 0) (s.getD 9 0)
  let v6 := gMix m v5 1 6 11 12 (s.getD 10 0) (s.getD 11 0)
  let v7 := gMix m v6 2 7 8 13 (s.getD 12 0) (s.getD 13 0)
  gMix m v7 3 4 9 14 (s.getD 14 0) (s.getD 15 0)

/-- The BLAKE2s compression function. h is the 8-word chaining state, m the 16-word
message block, t the byte offset counter, last the final-block flag. -/
def blakeCompress (h : List Nat) (m : List Nat) (t : Nat) (last : Bool) : List Nat :=
  let v0 := h ++ blakeIV
  let v1 := v0.set 12 (Nat.xor (v0.getD 12 0) (t % 4294967296))
  let v2 := v1.set 13 (Nat.xor (v1.getD 13 0) (t / 4294967296 % 4294967296))
  let v3 := if last then v2.set 14 (Nat.xor (v2.getD 14 0) MASK32) else v2
  let vf := blakeSigma.foldl (blakeRound m) v3
  (List.range 8).map fun i => Nat.xor (h.getD i 0) (Nat.xor (vf.getD i 0) (vf.getD (i + 8) 0))

/-- Packs a byte list into little-endian 32-bit words, four bytes per word. -/
def bytesToWords : List Nat → List Nat
  | b0 :: b1 :: b2 :: b3 :: rest =>
      (b0 + 256 * b1 + 65536 * b2 + 16777216 * b3) :: bytesToWords rest
  | [b0, b1, b2] => [b0 + 256 * b1 + 65536 * b2]
  | [b0, b1] => [b0 + 256 * b1]
  | [b0] => [b0]
  | [] => []

/-- Unpacks 32-bit words into their little-endian byte representation. -/
def wordsToBytes : List Nat → List Nat
  | [] => []
  | w :: ws => w % 256 :: w / 256 % 256 :: w / 65536 % 256 :: w / 16777216 % 256 :: wordsToBytes ws

/-- Pads a byte list on the right with zero bytes up to length n. -/
def padTo (n : Nat) (l : List Nat) : List Nat := l ++ List.replicate (n - l.length) 0

/-- Processes the message in 64-byte blocks: every block but the last is compressed with
the running byte counter, the last block is zero-padded and compressed with the final
flag set. The fuel argument bounds the recursion and is set to the message length. -/
def blake2sLoop (fuel : Nat) (h : List Nat) (t : Nat) (msg : List Nat) : List Nat :=
  match fuel with
  | 0 => blakeCompress h (bytesToWords (padTo 64 msg)) (t + msg.length) true
  | fuel2 + 1 =>
    if msg.length ≤ 64 then
      blakeCompress h (bytesToWords (padTo 64 msg)) (t + msg.length) true
    else
      blake2sLoop fuel2 (blakeCompress h (bytesToWords (msg.take 64)) (t + 64) false)
        (t + 64) (msg.drop 64)

/-- The function blake2s_hash of crypto/src/hash/blake2s/mod.rs: unkeyed BLAKE2s with a
32-byte digest, i.e. blake2s(32, [], bytes) of the external blake2 crate, returning the
digest as a list of 32 bytes. -/
def blake2s_hash (msg : List Nat) : List Nat :=
  let h0 := blakeIV.set 0 (Nat.xor 0x6A09E667 0x01010020)
  wordsToBytes (blake2sLoop msg.length h0 0 msg)

-- ================================================================================================
-- BYTE-LEVEL HELPERS (mirroring array writes in the Rust source)
-- ================================================================================================

/-- Concatenation of a list of byte lists. -/
def joinAll : List (List Nat) → List Nat
  | [] => []
  | l :: ls => l ++ joinAll ls

/-- The effect of data[i..i+src.len()].copy_from_slice(src) on a byte buffer viewed as a
list: the src.length bytes starting at position i are replaced by src. -/
def setSlice (l : List Nat) (i : Nat) (src : List Nat) : List Nat :=
  l.take i ++ src ++ l.drop (i + src.length)

/-- The 8-byte little-endian encoding of a 64-bit value, as produced by u64::to_le_bytes. -/
def u64LeBytes (v : Nat) : List Nat :=
  [v % 256, v / 2 ^ 8 % 256, v / 2 ^ 16 % 256, v / 2 ^ 24 % 256,
   v / 2 ^ 32 % 256, v / 2 ^ 40 % 256, v / 2 ^ 48 % 256, v / 2 ^ 56 % 256]

-- ================================================================================================
-- STREAMING HASHER (struct Blake2sHasher of crypto/src/hash/blake2s/mod.rs)
-- ================================================================================================

/-- State of the streaming Blake2sHasher wrapper: the bytes accumulated so far. The external
blake2 crate's incremental interface computes the same digest as the one-shot function on
the concatenation of all written bytes, which is what this state captures. -/
def Blake2sHasher := List Nat

/-- Blake2sHasher::new(): no bytes written yet. -/
def Blake2sHasher.new : Blake2sHasher := []

/-- ByteWriter::write_u8_slice for Blake2sHasher: feeds the given bytes to the accumulator. -/
def Blake2sHasher.write_u8_slice (st : Blake2sHasher) (bytes : List Nat) : Blake2sHasher :=
  List.append st bytes

/-- Blake2sHasher::finalize(): the 32-byte BLAKE2s digest of all bytes written so far. -/
def Blake2sHasher.finalize (st : Blake2sHasher) : List Nat := blake2s_hash st

-- ================================================================================================
-- Blake2s_256 (crypto/src/hash/blake2s/mod.rs)
-- ================================================================================================

/- Field elements are represented by their minimal canonical byte serialization
(E::to_bytes(), 8 bytes for the 64-bit base fields this hasher is used with). When the
field's IS_CANONICAL flag is set, the in-memory representation equals the canonical one,
so E::elements_as_bytes is the concatenation of those same byte forms. -/

namespace Blake2s_256

/-- Blake2s_256::hash: the raw 32-byte BLAKE2s digest of the input bytes. -/
def hash (bytes : List Nat) : List Nat := blake2s_hash bytes

/-- Blake2s_256::merge: hashes the zero-copy byte view of the two 32-byte digests
(ByteDigest::digests_as_bytes, i.e. their concatenation). -/
def merge (a b : List Nat) : List Nat := blake2s_hash (joinAll [a, b])

/-- Blake2s_256::merge_with_int: builds a 40-byte buffer holding the seed digest in
bytes 0..32 and the little-endian counter in bytes 32..40, then hashes it. -/
def merge_with_int (seed : List Nat) (value : Nat) : List Nat :=
  blake2s_hash (setSlice (setSlice (List.replicate 40 0) 0 seed) 32 (u64LeBytes value))

/-- Blake2s_256::hash_elements. On the canonical path the elements' bytes are hashed as one
contiguous buffer. On the non-canonical path each element's 8-byte canonical form is copied
into the first 8 bytes of a zeroed 32-byte slot (buf[..8].copy_from_slice(e.to_bytes()),
which panics when the form is not exactly 8 bytes, modelled as none) and the slots are
streamed into a Blake2sHasher which is finalized after the last element. -/
def hash_elements (isCanonical : Bool) (elements : List (List Nat)) : Option (List Nat) :=
  if isCanonical then
    some (blake2s_hash (joinAll elements))
  else if elements.all (fun e => e.length = 8) then
    some (Blake2sHasher.finalize (elements.foldl
      (fun st e => st.write_u8_slice (setSlice (List.replicate 32 0) 0 e))
      Blake2sHasher.new))
  else
    none

end Blake2s_256

-- ================================================================================================
-- Blake2s_192 (crypto/src/hash/blake2s/mod.rs)
-- ================================================================================================

namespace Blake2s_192

/-- Blake2s_192::hash: the first 24 bytes of the 32-byte BLAKE2s digest of the input. -/
def hash (bytes : List Nat) : List Nat := (blake2s_hash bytes).take 24

/-- Blake2s_192::merge: hashes the byte view of the two 24-byte digests and truncates. -/
def merge (a b : List Nat) : List Nat := (blake2s_hash (joinAll [a, b])).take 24

/-- Blake2s_192::merge_with_int: builds a 32-byte buffer holding the 24-byte seed digest in
bytes 0..24 and the little-endian counter in bytes 24..32, hashes it and truncates. -/
def merge_with_int (seed : List Nat) (value : Nat) : List Nat :=
  ((blake2s_hash (setSlice (setSlice (List.replicate 32 0) 0 seed) 24 (u64LeBytes value))).take 24)

/-- Blake2s_192::hash_elements. On the canonical path the elements' bytes are hashed as one
contiguous buffer and the digest truncated. On the non-canonical path the elements are
written to a Blake2sHasher through hasher.write(elements); the Serializable implementation
for element slices (modelled from the spec: each element is serialized to its minimal
canonical form, utils crate not in src/) writes each element's canonical bytes in order,
with no 32-byte padding, then the digest is finalized and truncated. -/
def hash_elements (isCanonical : Bool) (elements : List (List Nat)) : List Nat :=
  if isCanonical then
    (blake2s_hash (joinAll elements)).take 24
  else
    (Blake2sHasher.finalize (elements.foldl
      (fun st e => st.write_u8_slice e) Blake2sHasher.new)).take 24

end Blake2s_192

-- ================================================================================================
-- ByteDigest SERIALIZATION (crypto/src/hash/mod.rs)
-- ================================================================================================

/-- Modelled from the spec: the structured deserialization error of the utils crate (not in
src/), distinguishing a wrong byte count from a malformed encoding. -/
inductive DeserializationError where
  | unexpectedEOF
  | invalidValue
  deriving DecidableEq, Repr

/-- Modelled from the spec: ByteReader::read_u8_array over a byte source (utils crate not in
src/): yields the first n bytes and the remaining source, or a wrong-byte-count error when
fewer than n bytes remain. -/
def read_u8_array (n : Nat) (source : List Nat) :
    Except DeserializationError (List Nat × List Nat) :=
  if n ≤ source.length then Except.ok (source.take n, source.drop n)
  else Except.error DeserializationError.unexpectedEOF

/-- Serializable::write_into for ByteDigest<N>: writes exactly the digest's own N bytes. -/
def ByteDigest.write_into (d : List Nat) : List Nat := d

/-- Deserializable::read_from for ByteDigest<N>: reads an N-byte array from the source. -/
def ByteDigest.read_from (N : Nat) (source : List Nat) :
    Except DeserializationError (List Nat × List Nat) :=
  read_u8_array N source

/-- Digest::as_bytes for ByteDigest<N>: the 32-byte view, the digest's bytes zero-padded on
the right. -/
def ByteDigest.as_bytes (d : List Nat) : List Nat := padTo 32 d

-- ================================================================================================
-- CONSTRAINT EVALUATOR (verifier/src/evaluator.rs)
-- ================================================================================================

/- The evaluator is generic over the field element type F (a commutative ring suffices for
the operations used: addition, multiplication, natural powers), over the opaque coefficient
types TC (transition) and BC (boundary), and over the opaque auxiliary-randomness type R.
The AIR, its transition constraints and its boundary constraint groups are external
collaborators, modelled as structures of unconstrained functions. -/

/-- EvaluationFrame: the (current, next) pair of trace rows. -/
structure EvaluationFrame (F : Type) where
  current : List F
  next : List F

/-- The TransitionConstraints collaborator returned by Air::get_transition_constraints. -/
structure TransitionConstraints (F : Type) where
  num_main_constraints : Nat
  num_aux_constraints : Nat
  combine_evaluations : List F → List F → F → F

/-- One boundary constraint group as exposed to the evaluator: its degree-adjustment
exponent and its evaluation function taking the row, x and x_pow_adjustment. -/
structure BoundaryConstraintGroup (F : Type) where
  degree_adjustment : Nat
  evaluate_at : List F → F → F → F

/-- The BoundaryConstraints collaborator returned by Air::get_boundary_constraints. -/
structure BoundaryConstraints (F : Type) where
  main_constraints : List (BoundaryConstraintGroup F)
  aux_constraints : List (BoundaryConstraintGroup F)

/-- The pair of coefficient sets drawn by the verifier. -/
structure ConstraintCompositionCoefficients (TC BC : Type) where
  transition : TC
  boundary : BC

/-- The Air collaborator, reduced to the interface consumed by evaluate_constraints.
evaluate_transition and evaluate_aux_transition receive the length of the zeroed output
buffer allocated for them and return its final contents. -/
structure Air (F TC BC R : Type) where
  trace_length : Nat
  get_periodic_column_polys : List (List F)
  get_transition_constraints : TC → TransitionConstraints F
  evaluate_transition : EvaluationFrame F → List F → Nat → List F
  evaluate_aux_transition :
    EvaluationFrame F → EvaluationFrame F → List F → R → Nat → List F
  get_boundary_constraints : R → BC → BoundaryConstraints F

variable {F TC BC R : Type}

/-- Modelled from the spec: polynom::eval of the math crate (not in src/), the standard
evaluation of a coefficient list (constant term first) at a point, by Horner's rule. -/
def polynomEval [CommRing F] (p : List F) (x : F) : F :=
  p.foldr (fun c acc => c + x * acc) 0

/-- Collects the results of a fallible map, failing as soon as one element fails; the
Option-valued image of the source's infallible iterator map whose body can panic. -/
def mapOrNone {α β : Type} (f : α → Option β) : List α → Option (List β)
  | [] => some []
  | a :: l =>
    match f a, mapOrNone f l with
    | some b, some bs => some (b :: bs)
    | _, _ => none

/-- The periodic-column evaluation step of evaluate_constraints: for each periodic column
polynomial, the number of cycles trace_length / poly.len() (a division by zero panic when
the polynomial is empty, modelled as none) is cast to u32 (reduction modulo 2^32) and the
polynomial is evaluated at x raised to that exponent. -/
def periodicValues [CommRing F] (air : Air F TC BC R) (x : F) : Option (List F) :=
  mapOrNone (fun poly =>
    if poly.length = 0 then none
    else some (polynomEval poly (x ^ (air.trace_length / poly.length % 4294967296))))
    air.get_periodic_column_polys

/-- One iteration of the boundary loops of evaluate_constraints, threading the cached
(degree_adjustment, xp) pair and the accumulated sum: xp is recomputed only when the
group's degree_adjustment differs from the cached one. -/
def boundaryStep [CommRing F] (x : F) (row : List F)
    (s : Nat × F × F) (g : BoundaryConstraintGroup F) : Nat × F × F :=
  let da := s.1
  let xp := s.2.1
  let p := if g.degree_adjustment = da then (da, xp)
           else (g.degree_adjustment, x ^ g.degree_adjustment)
  (p.1, p.2, s.2.2 + g.evaluate_at row x p.2)

/-- The function evaluate_constraints of verifier/src/evaluator.rs. Returns none where the
Rust function panics: a division by zero on an empty periodic column polynomial, or the
out-of-bounds index main_constraints()[0] on an empty main boundary group list. -/
def evaluate_constraints [CommRing F] (air : Air F TC BC R)
    (composition_coefficients : ConstraintCompositionCoefficients TC BC)
    (main_trace_frame : EvaluationFrame F)
    (aux_trace_frame : Option (EvaluationFrame F))
    (aux_rand_elements : R) (x : F) : Option F :=
  let t_constraints := air.get_transition_constraints composition_coefficients.transition
  match periodicValues air x with
  | none => none
  | some periodic_values =>
    let t_evaluations1 :=
      air.evaluate_transition main_trace_frame periodic_values
        t_constraints.num_main_constraints
    let t_evaluations2 :=
      match aux_trace_frame with
      | some af =>
          air.evaluate_aux_transition main_trace_frame af periodic_values
            aux_rand_elements t_constraints.num_aux_constraints
      | none => List.replicate t_constraints.num_aux_constraints 0
    let t_combined := t_constraints.combine_evaluations t_evaluations1 t_evaluations2 x
    let b_constraints :=
      air.get_boundary_constraints aux_rand_elements composition_coefficients.boundary
    match b_constraints.main_constraints with
    | [] => none
    | g0 :: _ =>
      let s0 : Nat × F × F := (g0.degree_adjustment, x ^ g0.degree_adjustment, 0)
      let s1 := b_constraints.main_constraints.foldl
        (boundaryStep x main_trace_frame.current) s0
      let s2 :=
        match aux_trace_frame with
        | some af => b_constraints.aux_constraints.foldl (boundaryStep x af.current) s1
        | none => s1
      some (s2.2.2 + t_combined)

/-- One iteration of the boundary loops in the variant that recomputes
x_pow_adjustment = x^(group.degree_adjustment) unconditionally for every group. -/
def uncondStep [CommRing F] (x : F) (row : List F)
    (s : Nat × F × F) (g : BoundaryConstraintGroup F) : Nat × F × F :=
  (g.degree_adjustment, x ^ g.degree_adjustment,
   s.2.2 + g.evaluate_at row x (x ^ g.degree_adjustment))

/-- The variant of evaluate_constraints that drops the degree-adjustment cache and
recomputes x^(group.degree_adjustment) unconditionally in both boundary loops; identical
to evaluate_constraints in every other respect. -/
def evaluate_constraints_uncond [CommRing F] (air : Air F TC BC R)
    (composition_coefficients : ConstraintCompositionCoefficients TC BC)
    (main_trace_frame : EvaluationFrame F)
    (aux_trace_frame : Option (EvaluationFrame F))
    (aux_rand_elements : R) (x : F) : Option F :=
  let t_constraints := air.get_transition_constraints composition_coefficients.transition
  match periodicValues air x with
  | none => none
  | some periodic_values =>
    let t_evaluations1 :=
      air.evaluate_transition main_trace_frame periodic_values
        t_constraints.num_main_constraints
    let t_evaluations2 :=
      match aux_trace_frame with
      | some af =>
          air.evaluate_aux_transition main_trace_frame af periodic_values
            aux_rand_elements t_constraints.num_aux_constraints
      | none => List.replicate t_constraints.num_aux_constraints 0
    let t_combined := t_constraints.combine_evaluations t_evaluations1 t_evaluations2 x
    let b_constraints :=
      air.get_boundary_constraints aux_rand_elements composition_coefficients.boundary
    match b_constraints.main_constraints with
    | [] => none
    | g0 :: _ =>
      let s0 : Nat × F × F := (g0.degree_adjustment, x ^ g0.degree_adjustment, 0)
      let s1 := b_constraints.main_constraints.foldl
        (uncondStep x main_trace_frame.current) s0
      let s2 :=
        match aux_trace_frame with
        | some af => b_constraints.aux_constraints.foldl (uncondStep x af.current) s1
        | none => s1
      some (s2.2.2 + t_combined)

-- ================================================================================================
-- SPEC-SHAPED ABBREVIATIONS USED IN THEOREM STATEMENTS
-- ================================================================================================

/-- The periodic values as the spec describes them after accounting for the u32 cast,
total on nonempty polynomials. -/
def periodicValuesTotal [CommRing F] (air : Air F TC BC R) (x : F) : List F :=
  air.get_periodic_column_polys.map fun poly =>
    polynomEval poly (x ^ (air.trace_length / poly.length % 4294967296))

/-- The combined transition value t_combined: the AIR combiner applied to the main and
auxiliary transition evaluations (the latter a zeroed vector when no auxiliary frame is
present) at x. -/
def tCombined [CommRing F] (air : Air F TC BC R)
    (composition_coefficients : ConstraintCompositionCoefficients TC BC)
    (main_trace_frame : EvaluationFrame F)
    (aux_trace_frame : Option (EvaluationFrame F))
    (aux_rand_elements : R) (x : F) : F :=
  let t_constraints := air.get_transition_constraints composition_coefficients.transition
  let pv := periodicValuesTotal air x
  t_constraints.combine_evaluations
    (air.evaluate_transition main_trace_frame pv t_constraints.num_main_constraints)
    (match aux_trace_frame with
     | some af =>
         air.evaluate_aux_transition main_trace_frame af pv aux_rand_elements
           t_constraints.num_aux_constraints
     | none => List.replicate t_constraints.num_aux_constraints 0)
    x

/-- The sum over the main-segment boundary constraint groups, in supplied order, of
group.evaluate_at(current main row, x, x^(group.degree_adjustment)). -/
def mainBoundarySum [CommRing F] (air : Air F TC BC R)
    (composition_coefficients : ConstraintCompositionCoefficients TC BC)
    (main_trace_frame : EvaluationFrame F) (aux_rand_elements : R) (x : F) : F :=
  (((air.get_boundary_constraints aux_rand_elements
      composition_coefficients.boundary).main_constraints).map fun g =>
    g.evaluate_at main_trace_frame.current x (x ^ g.degree_adjustment)).sum

/-- The sum over the auxiliary-segment boundary constraint groups of
group.evaluate_at(current auxiliary row, x, x^(group.degree_adjustment)), taken to be zero
when no auxiliary frame is present. -/
def auxBoundarySum [CommRing F] (air : Air F TC BC R)
    (composition_coefficients : ConstraintCompositionCoefficients TC BC)
    (aux_trace_frame : Option (EvaluationFrame F)) (aux_rand_elements : R) (x : F) : F :=
  match aux_trace_frame with
  | none => 0
  | some af =>
    (((air.get_boundary_constraints aux_rand_elements
        composition_coefficients.boundary).aux_constraints).map fun g =>
      g.evaluate_at af.current x (x ^ g.degree_adjustment)).sum

-- ================================================================================================
-- CONCRETE INSTANCES USED BY WITNESSES AND COUNTEREXAMPLES
-- ================================================================================================

/-- A small AIR over the integers exercising periodic columns, auxiliary transition
constraints and several boundary groups with distinct degree adjustments. -/
def wAir : Air ℤ Unit Unit Unit where
  trace_length := 8
  get_periodic_column_polys := [[1, 2]]
  get_transition_constraints := fun _ =>
    ⟨1, 1, fun t1 t2 y => t1.headD 0 + t2.headD 0 * y⟩
  evaluate_transition := fun f pv _ => [f.current.headD 0 + pv.headD 0]
  evaluate_aux_transition := fun _ af pv _ _ => [af.current.headD 0 * pv.headD 0]
  get_boundary_constraints := fun _ _ =>
    ⟨[⟨1, fun row _ xp => row.headD 0 * xp⟩, ⟨2, fun _ _ xp => xp⟩],
     [⟨2, fun row _ xp => row.headD 0 + xp⟩]⟩

/-- An AIR over the integers whose main boundary constraint group list is empty. -/
def wAirEmpty : Air ℤ Unit Unit Unit where
  trace_length := 4
  get_periodic_column_polys := []
  get_transition_constraints := fun _ => ⟨0, 0, fun _ _ _ => 0⟩
  evaluate_transition := fun _ _ _ => []
  evaluate_aux_transition := fun _ _ _ _ _ => []
  get_boundary_constraints := fun _ _ => ⟨[], []⟩

/-- A concrete main-segment frame over the integers. -/
def wMain : EvaluationFrame ℤ := ⟨[3, 4], [5, 6]⟩

/-- A concrete auxiliary-segment frame over the integers. -/
def wAux : EvaluationFrame ℤ := ⟨[7], [8]⟩

/-- An AIR over Z mod 7 whose single periodic column has length 2 while the trace length is
2^33, so that the cycle count 2^32 overflows the u32 cast in the evaluator. Its transition
evaluation passes the periodic values through to the combiner unchanged. -/
def c4Air : Air (ZMod 7) Unit Unit Unit where
  trace_length := 2 ^ 33
  get_periodic_column_polys := [[0, 1]]
  get_transition_constraints := fun _ => ⟨1, 0, fun t1 _ _ => t1.headD 0⟩
  evaluate_transition := fun _ pv _ => pv
  evaluate_aux_transition := fun _ _ _ _ _ => []
  get_boundary_constraints := fun _ _ => ⟨[⟨0, fun _ _ _ => 0⟩], []⟩

/-- A concrete main-segment frame over Z mod 7. -/
def c4Frame : EvaluationFrame (ZMod 7) := ⟨[0], [0]⟩

-- ================================================================================================
-- SHARED LEMMAS
-- ================================================================================================

/-- Mapping the fallible periodic evaluation over nonempty polynomials never fails and
agrees with the plain map. -/
lemma mapM_periodic_total [CommRing F] (x : F) (tl : Nat) :
    ∀ (l : List (List F)), (∀ p ∈ l, p ≠ []) →
      mapOrNone (fun poly =>
        if poly.length = 0 then none
        else some (polynomEval poly (x ^ (tl / poly.length % 4294967296)))) l =
      some (l.map fun poly => polynomEval poly (x ^ (tl / poly.length % 4294967296)))
  | [], _ => rfl
  | p :: ps, h => by
      have hp : p ≠ [] := h p (List.mem_cons_self p ps)
      have hlen : ¬p.length = 0 := by simpa [List.length_eq_zero] using hp
      have ih := mapM_periodic_total x tl ps fun q hq => h q (List.mem_cons_of_mem p hq)
      simp [mapOrNone, hlen, ih]

/-- Under nonempty periodic column polynomials the periodic-value step succeeds and
produces the total map. -/
lemma periodicValues_eq_total [CommRing F] (air : Air F TC BC R) (x : F)
    (hper : ∀ p ∈ air.get_periodic_column_polys, p ≠ []) :
    periodicValues air x = some (periodicValuesTotal air x) :=
  mapM_periodic_total x air.trace_length air.get_periodic_column_polys hper

/-- When the cached power matches the cached exponent, the caching step agrees with the
unconditional step. -/
lemma boundaryStep_eq_uncond [CommRing F] (x : F) (row : List F)
    (s : Nat × F × F) (g : BoundaryConstraintGroup F) (h : s.2.1 = x ^ s.1) :
    boundaryStep x row s g = uncondStep x row s g := by
  unfold boundaryStep uncondStep
  by_cases hda : g.degree_adjustment = s.1
  · simp [hda, h]
  · simp [hda]

/-- The caching fold agrees with the unconditional fold from any state satisfying the
cache invariant. -/
lemma foldl_boundary_eq_uncond [CommRing F] (x : F) (row : List F) :
    ∀ (gs : List (BoundaryConstraintGroup F)) (s : Nat × F × F), s.2.1 = x ^ s.1 →
      gs.foldl (boundaryStep x row) s = gs.foldl (uncondStep x row) s
  | [], _, _ => rfl
  | g :: gs, s, h => by
      rw [List.foldl_cons, List.foldl_cons, boundaryStep_eq_uncond x row s g h]
      exact foldl_boundary_eq_uncond x row gs _ rfl

/-- The unconditional fold preserves the cache invariant. -/
lemma foldl_uncond_inv [CommRing F] (x : F) (row : List F) :
    ∀ (gs : List (BoundaryConstraintGroup F)) (s : Nat × F × F), s.2.1 = x ^ s.1 →
      (gs.foldl (uncondStep x row) s).2.1 = x ^ (gs.foldl (uncondStep x row) s).1
  | [], _, h => h
  | g :: gs, s, _ => by
      rw [List.foldl_cons]
      exact foldl_uncond_inv x row gs _ rfl

/-- The accumulator of the unconditional fold is the starting accumulator plus the sum of
the group evaluations at their own adjusted powers. -/
lemma foldl_uncond_sum [CommRing F] (x : F) (row : List F) :
    ∀ (gs : List (BoundaryConstraintGroup F)) (s : Nat × F × F),
      (gs.foldl (uncondStep x row) s).2.2 =
        s.2.2 + (gs.map fun g => g.evaluate_at row x (x ^ g.degree_adjustment)).sum
  | [], s => by simp
  | g :: gs, s => by
      rw [List.foldl_cons, foldl_uncond_sum x row gs _]
      dsimp only [uncondStep]
      rw [List.map_cons, List.sum_cons, add_assoc]

/-- evaluate_constraints agrees everywhere with its variant that recomputes the adjusted
power unconditionally. -/
lemma eval_eq_uncond [CommRing F] (air : Air F TC BC R)
    (cc : ConstraintCompositionCoefficients TC BC) (mf : EvaluationFrame F)
    (af : Option (EvaluationFrame F)) (ar : R) (x : F) :
    evaluate_constraints air cc mf af ar x = evaluate_constraints_uncond air cc mf af ar x := by
  unfold evaluate_constraints evaluate_constraints_uncond
  cases hpv : periodicValues air x with
  | none => rfl
  | some pv =>
    dsimp only
    cases hbc : (air.get_boundary_constraints ar cc.boundary).main_constraints with
    | nil => rfl
    | cons g0 gs =>
      dsimp only
      have h1 : (g0 :: gs).foldl (boundaryStep x mf.current)
            (g0.degree_adjustment, x ^ g0.degree_adjustment, 0) =
          (g0 :: gs).foldl (uncondStep x mf.current)
            (g0.degree_adjustment, x ^ g0.degree_adjustment, 0) :=
        foldl_boundary_eq_uncond x mf.current (g0 :: gs) _ rfl
      have hS : (List.foldl (uncondStep x mf.current)
            (g0.degree_adjustment, x ^ g0.degree_adjustment, 0) (g0 :: gs)).2.1 =
          x ^ (List.foldl (uncondStep x mf.current)
            (g0.degree_adjustment, x ^ g0.degree_adjustment, 0) (g0 :: gs)).1 :=
        foldl_uncond_inv x mf.current (g0 :: gs)
          (g0.degree_adjustment, x ^ g0.degree_adjustment, 0) rfl
      cases af with
      | none => rw [h1]
      | some f =>
        dsimp only
        rw [h1, foldl_boundary_eq_uncond x f.current
          (air.get_boundary_constraints ar cc.boundary).aux_constraints
          (List.foldl (uncondStep x mf.current)
            (g0.degree_adjustment, x ^ g0.degree_adjustment, 0) (g0 :: gs)) hS]

/-- Merging two digests hashes exactly the concatenation of their bytes. -/
lemma joinAll_pair (a b : List Nat) : joinAll [a, b] = a ++ b := by
  simp [joinAll]

/-- Writing a digest of length n and then 8 counter bytes into a zeroed buffer of length
n + 8 yields the digest followed by the counter bytes. -/
lemma mwi_buffer (n : Nat) (seed : List Nat) (h : seed.length = n) (v : Nat) :
    setSlice (setSlice (List.replicate (n + 8) 0) 0 seed) n (u64LeBytes v) =
      seed ++ u64LeBytes v := by
  have h8 : (u64LeBytes v).length = 8 := rfl
  have hd : (List.replicate (n + 8) (0 : Nat)).drop (0 + seed.length) = List.replicate 8 0 := by
    rw [h, Nat.zero_add, List.drop_replicate, Nat.add_sub_cancel_left]
  unfold setSlice
  rw [List.take_zero, List.nil_append, hd, h8]
  have ht : ((seed ++ List.replicate 8 0).take n) = seed := List.take_left' h
  have hdr : ((seed ++ List.replicate 8 0).drop (n + 8)) = [] := by
    apply List.drop_eq_nil_of_le
    simp [h]
  rw [ht, hdr, List.append_nil]

/-- The 40-byte merge_with_int buffer of the 256-bit variant is the seed digest followed by
the counter bytes. -/
lemma mwi_buffer_256 (seed : List Nat) (h : seed.length = 32) (v : Nat) :
    setSlice (setSlice (List.replicate 40 0) 0 seed) 32 (u64LeBytes v) =
      seed ++ u64LeBytes v :=
  mwi_buffer 32 seed h v

/-- The 32-byte merge_with_int buffer of the 192-bit variant is the seed digest followed by
the counter bytes. -/
lemma mwi_buffer_192 (seed : List Nat) (h : seed.length = 24) (v : Nat) :
    setSlice (setSlice (List.replicate 32 0) 0 seed) 24 (u64LeBytes v) =
      seed ++ u64LeBytes v :=
  mwi_buffer 24 seed h v

/-- A zeroed 32-byte slot whose first 8 bytes are overwritten with an 8-byte canonical form
is that form right-padded with 24 zero bytes. -/
lemma slot_eq (e : List Nat) (h : e.length = 8) :
    setSlice (List.replicate 32 0) 0 e = e ++ List.replicate 24 0 := by
  unfold setSlice
  rw [List.take_zero, List.nil_append, h, Nat.zero_add, List.drop_replicate]

/-- Streaming the padded slots of the elements into the hasher accumulates exactly the
concatenation of the slots, in input order. -/
lemma foldl_write_slot_eq :
    ∀ (elements : List (List Nat)) (st : List Nat),
      elements.foldl
        (fun st2 e => Blake2sHasher.write_u8_slice st2 (setSlice (List.replicate 32 0) 0 e))
        st =
      st ++ joinAll (elements.map fun e => setSlice (List.replicate 32 0) 0 e)
  | [], st => by simp [joinAll]
  | e :: es, st => by
      rw [List.foldl_cons, foldl_write_slot_eq es]
      simp [Blake2sHasher.write_u8_slice, joinAll]

/-- Streaming the elements' canonical byte forms into the hasher accumulates exactly their
concatenation, in input order. -/
lemma foldl_write_id_eq :
    ∀ (elements : List (List Nat)) (st : List Nat),
      elements.foldl (fun st2 e => Blake2sHasher.write_u8_slice st2 e) st =
        st ++ joinAll elements
  | [], st => by simp [joinAll]
  | e :: es, st => by
      rw [List.foldl_cons, foldl_write_id_eq es]
      simp [Blake2sHasher.write_u8_slice, joinAll]

/-- evaluate_constraints, when it succeeds, returns the combined transition value plus the
main and auxiliary boundary sums. -/
lemma eval_eq_sum [CommRing F] (air : Air F TC BC R)
    (cc : ConstraintCompositionCoefficients TC BC) (mf : EvaluationFrame F)
    (af : Option (EvaluationFrame F)) (ar : R) (x : F)
    (hper : ∀ p ∈ air.get_periodic_column_polys, p ≠ [])
    (hmain : (air.get_boundary_constraints ar cc.boundary).main_constraints ≠ []) :
    evaluate_constraints air cc mf af ar x =
      some (tCombined air cc mf af ar x +
        (mainBoundarySum air cc mf ar x + auxBoundarySum air cc af ar x)) := by
  rw [eval_eq_uncond]
  unfold evaluate_constraints_uncond tCombined mainBoundarySum auxBoundarySum
  rw [periodicValues_eq_total air x hper]
  dsimp only
  cases hbc : (air.get_boundary_constraints ar cc.boundary).main_constraints with
  | nil => exact absurd hbc hmain
  | cons g0 gs =>
    cases af with
    | none =>
      dsimp only
      rw [foldl_uncond_sum]
      dsimp only
      congr 1
      ring
    | some f =>
      dsimp only
      rw [foldl_uncond_sum, foldl_uncond_sum]
      dsimp only
      congr 1
      ring



-- ================================================================================================
-- CLAIM THEOREMS
-- ================================================================================================

/-- C1: for every AIR, coefficient set, main frame, optional auxiliary frame, auxiliary
random elements and out-of-domain point x (on which the evaluator does not panic),
evaluate_constraints returns t_combined plus the sum, over main-segment boundary groups in
supplied order and then auxiliary-segment groups if an auxiliary frame is present, of
group.evaluate_at(current row, x, x^(group.degree_adjustment)). -/
theorem spec_c1_result_is_boundary_sum_plus_t_combined [CommRing F]
    (air : Air F TC BC R) (cc : ConstraintCompositionCoefficients TC BC)
    (mf : EvaluationFrame F) (af : Option (EvaluationFrame F)) (ar : R) (x : F)
    (hper : ∀ p ∈ air.get_periodic_column_polys, p ≠ [])
    (hmain : (air.get_boundary_constraints ar cc.boundary).main_constraints ≠ []) :
    evaluate_constraints air cc mf af ar x =
      some (tCombined air cc mf af ar x +
        (mainBoundarySum air cc mf ar x + auxBoundarySum air cc af ar x)) :=
  eval_eq_sum air cc mf af ar x hper hmain

/-- Witness for C1 at a concrete AIR over the integers with an auxiliary frame. -/
theorem spec_c1_witness :
    evaluate_constraints wAir ⟨(), ()⟩ wMain (some wAux) () 2 =
      some (tCombined wAir ⟨(), ()⟩ wMain (some wAux) () 2 +
        (mainBoundarySum wAir ⟨(), ()⟩ wMain () 2 +
         auxBoundarySum wAir ⟨(), ()⟩ (some wAux) () 2)) :=
  spec_c1_result_is_boundary_sum_plus_t_combined wAir ⟨(), ()⟩ wMain (some wAux) () 2
    (by decide) (List.cons_ne_nil _ _)

/-- C5: the degree-adjustment cache is a pure optimization: evaluate_constraints agrees on
every input with the variant that recomputes xp = x^(group.degree_adjustment)
unconditionally for every boundary group, across both the main and auxiliary loops. -/
theorem spec_c5_caching_is_pure_optimization [CommRing F]
    (air : Air F TC BC R) (cc : ConstraintCompositionCoefficients TC BC)
    (mf : EvaluationFrame F) (af : Option (EvaluationFrame F)) (ar : R) (x : F) :
    evaluate_constraints air cc mf af ar x =
      evaluate_constraints_uncond air cc mf af ar x :=
  eval_eq_uncond air cc mf af ar x

/-- C10: with an empty main boundary group list the evaluator fails (the unconditional
index of the first main group's degree_adjustment) regardless of all other arguments, and
with at least one main group (and nonempty periodic polynomials) it succeeds. -/
theorem spec_c10_empty_main_groups_panic [CommRing F]
    (air : Air F TC BC R) (cc : ConstraintCompositionCoefficients TC BC)
    (mf : EvaluationFrame F) (af : Option (EvaluationFrame F)) (ar : R) (x : F) :
    ((air.get_boundary_constraints ar cc.boundary).main_constraints = [] →
      evaluate_constraints air cc mf af ar x = none)
    ∧ ((air.get_boundary_constraints ar cc.boundary).main_constraints ≠ [] →
        (∀ p ∈ air.get_periodic_column_polys, p ≠ []) →
        (evaluate_constraints air cc mf af ar x).isSome = true) := by
  constructor
  · intro hmain
    unfold evaluate_constraints
    cases hpv : periodicValues air x with
    | none => rfl
    | some pv =>
      dsimp only
      rw [hmain]
  · intro hmain hper
    unfold evaluate_constraints
    rw [periodicValues_eq_total air x hper]
    dsimp only
    cases hbc : (air.get_boundary_constraints ar cc.boundary).main_constraints with
    | nil => exact absurd hbc hmain
    | cons g0 gs => rfl

/-- Witness for C10: the empty-main-group AIR fails, the nonempty one succeeds. -/
theorem spec_c10_witness :
    evaluate_constraints wAirEmpty ⟨(), ()⟩ wMain none () 2 = none
    ∧ (evaluate_constraints wAir ⟨(), ()⟩ wMain none () 2).isSome = true :=
  ⟨(spec_c10_empty_main_groups_panic wAirEmpty ⟨(), ()⟩ wMain none () 2).1 rfl,
   (spec_c10_empty_main_groups_panic wAir ⟨(), ()⟩ wMain none () 2).2
     (List.cons_ne_nil _ _) (by decide)⟩

/-- C4 counterexample: with trace_length 2^33 and a periodic column of length 2 over Z mod
7, the code computes the periodic value at x^((trace_length/L) mod 2^32) = x^0, yielding 1
at x = 2, while the claimed folded point x^(trace_length/L) = 2^(2^32) yields 2, so
evaluate_constraints (whose transition path passes the periodic value straight through)
differs from the claim's prediction. -/
theorem spec_c4_counterexample :
    evaluate_constraints c4Air ⟨(), ()⟩ c4Frame none () 2 = some 1
    ∧ polynomEval [(0 : ZMod 7), 1] ((2 : ZMod 7) ^ (c4Air.trace_length / 2)) = 2
    ∧ some (1 : ZMod 7) ≠ some (2 : ZMod 7) := by
  refine ⟨by decide, ?_, by decide⟩
  have hp : ∀ y : ZMod 7, polynomEval [(0 : ZMod 7), 1] y = y := by
    intro y
    simp [polynomEval]
  rw [hp]
  have hexp : c4Air.trace_length / 2 = 3 * 1431655765 + 1 := by decide
  rw [hexp, pow_add, pow_mul, pow_one]
  have h3 : (2 : ZMod 7) ^ (3 : Nat) = 1 := by decide
  rw [h3, one_pow, one_mul]

/-- C4 (amended): the folded point is x^((trace_length / L) mod 2^32) — the cycle count is
cast to u32 before exponentiation — and these values in column order are the periodic
values handed to the transition-constraint evaluation inside t_combined. -/
theorem spec_c4_periodic_folding_amended [CommRing F]
    (air : Air F TC BC R) (cc : ConstraintCompositionCoefficients TC BC)
    (mf : EvaluationFrame F) (af : Option (EvaluationFrame F)) (ar : R) (x : F)
    (hper : ∀ p ∈ air.get_periodic_column_polys, p ≠ [])
    (hdvd : ∀ p ∈ air.get_periodic_column_polys, p.length ∣ air.trace_length) :
    periodicValues air x =
      some (air.get_periodic_column_polys.map fun poly =>
        polynomEval poly (x ^ (air.trace_length / poly.length % 4294967296)))
    ∧ tCombined air cc mf af ar x =
        (air.get_transition_constraints cc.transition).combine_evaluations
          (air.evaluate_transition mf
            (air.get_periodic_column_polys.map fun poly =>
              polynomEval poly (x ^ (air.trace_length / poly.length % 4294967296)))
            (air.get_transition_constraints cc.transition).num_main_constraints)
          (match af with
           | some f =>
               air.evaluate_aux_transition mf f
                 (air.get_periodic_column_polys.map fun poly =>
                   polynomEval poly (x ^ (air.trace_length / poly.length % 4294967296)))
                 ar (air.get_transition_constraints cc.transition).num_aux_constraints
           | none =>
               List.replicate
                 (air.get_transition_constraints cc.transition).num_aux_constraints 0)
          x :=
  ⟨periodicValues_eq_total air x hper, rfl⟩

/-- Witness for the amended C4 at a concrete AIR over the integers whose periodic column
length divides the trace length. -/
theorem spec_c4_amended_witness :
    periodicValues wAir (2 : ℤ) =
      some (wAir.get_periodic_column_polys.map fun poly =>
        polynomEval poly ((2 : ℤ) ^ (wAir.trace_length / poly.length % 4294967296))) :=
  (spec_c4_periodic_folding_amended wAir ⟨(), ()⟩ wMain none () 2
    (by decide) (by decide)).1

/-- C2 counterexample: on the non-canonical path the 192-bit variant does not equal the
first 24 bytes of the 256-bit hash_elements on the same element list, because the 256-bit
variant pads each 8-byte canonical form to a 32-byte slot while the 192-bit variant hashes
the unpadded forms. -/
theorem spec_c2_counterexample :
    some (Blake2s_192.hash_elements false [[1, 0, 0, 0, 0, 0, 0, 0]]) ≠
      Option.map (fun d => d.take 24)
        (Blake2s_256.hash_elements false [[1, 0, 0, 0, 0, 0, 0, 0]]) := by
  decide

/-- C2 (amended): hash, merge and merge_with_int of the 192-bit variant are the first
24 bytes of the 256-bit primitive applied to the same byte stream, as is hash_elements on
the canonical path; on the non-canonical path the 192-bit variant is the truncation of the
primitive applied to the unpadded concatenation of the elements' canonical forms, not of
the 256-bit hash_elements (which pads each form to a 32-byte slot). -/
theorem spec_c2_truncation_amended (bytes a b seed24 : List Nat) (v : Nat)
    (elements : List (List Nat)) (hseed : seed24.length = 24) (hv : v < 2 ^ 64) :
    Blake2s_192.hash bytes = (Blake2s_256.hash bytes).take 24
    ∧ Blake2s_192.merge a b = (Blake2s_256.hash (a ++ b)).take 24
    ∧ Blake2s_192.merge_with_int seed24 v =
        (Blake2s_256.hash (seed24 ++ u64LeBytes v)).take 24
    ∧ Blake2s_192.hash_elements true elements = (blake2s_hash (joinAll elements)).take 24
    ∧ Blake2s_256.hash_elements true elements = some (blake2s_hash (joinAll elements))
    ∧ Blake2s_192.hash_elements false elements =
        (blake2s_hash (joinAll elements)).take 24 := by
  refine ⟨rfl, ?_, ?_, rfl, rfl, ?_⟩
  · unfold Blake2s_192.merge Blake2s_256.hash
    rw [joinAll_pair]
  · unfold Blake2s_192.merge_with_int Blake2s_256.hash
    rw [mwi_buffer_192 seed24 hseed v]
  · unfold Blake2s_192.hash_elements Blake2sHasher.finalize Blake2sHasher.new
    rw [if_neg (by simp), foldl_write_id_eq, List.nil_append]

/-- Witness for the amended C2 at a concrete digest and counter. -/
theorem spec_c2_amended_witness :
    Blake2s_192.merge_with_int (List.replicate 24 3) 7 =
      (Blake2s_256.hash (List.replicate 24 3 ++ u64LeBytes 7)).take 24 :=
  (spec_c2_truncation_amended [1] [2] [4] (List.replicate 24 3) 7 [[5]]
    (by decide) (by decide)).2.2.1

/-- C3: on the non-canonical path, hash_elements right-pads each element's 8-byte minimal
canonical form with zero bytes to a 32-byte slot, feeds the slots to the hash accumulator
in input order, finalizes after the last element, and the digest equals the hash of the
concatenation of the slots. -/
theorem spec_c3_non_canonical_slots (elements : List (List Nat))
    (h : ∀ e ∈ elements, e.length = 8) :
    Blake2s_256.hash_elements false elements =
      some (blake2s_hash (joinAll (elements.map fun e => e ++ List.replicate 24 0))) := by
  have hall : elements.all (fun e => e.length = 8) = true := by
    rw [List.all_eq_true]
    intro e he
    exact decide_eq_true (h e he)
  have hmap : elements.map (fun e => setSlice (List.replicate 32 0) 0 e) =
      elements.map (fun e => e ++ List.replicate 24 0) :=
    List.map_congr_left fun e he => slot_eq e (h e he)
  unfold Blake2s_256.hash_elements Blake2sHasher.finalize Blake2sHasher.new
  rw [if_neg (by simp), if_pos hall, foldl_write_slot_eq, List.nil_append, hmap]

/-- Witness for C3 at a concrete two-element list of 8-byte canonical forms. -/
theorem spec_c3_witness :
    Blake2s_256.hash_elements false [[1, 0, 0, 0, 0, 0, 0, 0], [2, 0, 0, 0, 0, 0, 0, 0]] =
      some (blake2s_hash (joinAll
        ([[1, 0, 0, 0, 0, 0, 0, 0], [2, 0, 0, 0, 0, 0, 0, 0]].map
          fun e => e ++ List.replicate 24 0))) :=
  spec_c3_non_canonical_slots [[1, 0, 0, 0, 0, 0, 0, 0], [2, 0, 0, 0, 0, 0, 0, 0]]
    (by decide)

/-- C6: merge_with_int(d, n) is the hash of the digest's own byte encoding (32 bytes for
the 256-bit variant, 24 for the 192-bit variant) followed by the 8-byte little-endian
encoding of n. -/
theorem spec_c6_merge_with_int (d32 d24 : List Nat) (n : Nat)
    (h32 : d32.length = 32) (h24 : d24.length = 24) (hn : n < 2 ^ 64) :
    Blake2s_256.merge_with_int d32 n = Blake2s_256.hash (d32 ++ u64LeBytes n)
    ∧ Blake2s_192.merge_with_int d24 n = Blake2s_192.hash (d24 ++ u64LeBytes n) := by
  constructor
  · unfold Blake2s_256.merge_with_int Blake2s_256.hash
    rw [mwi_buffer_256 d32 h32 n]
  · unfold Blake2s_192.merge_with_int Blake2s_192.hash
    rw [mwi_buffer_192 d24 h24 n]

/-- Witness for C6 at concrete digests and counter 5. -/
theorem spec_c6_witness :
    Blake2s_256.merge_with_int (List.replicate 32 1) 5 =
      Blake2s_256.hash (List.replicate 32 1 ++ u64LeBytes 5)
    ∧ Blake2s_192.merge_with_int (List.replicate 24 2) 5 =
      Blake2s_192.hash (List.replicate 24 2 ++ u64LeBytes 5) :=
  spec_c6_merge_with_int (List.replicate 32 1) (List.replicate 24 2) 5
    (by decide) (by decide) (by decide)

/-- C7: merge([a, b]) is the hash of the concatenation of the byte encodings of a and b,
for both digest widths. -/
theorem spec_c7_merge_is_hash_of_concat (a32 b32 a24 b24 : List Nat) :
    Blake2s_256.merge a32 b32 = Blake2s_256.hash (a32 ++ b32)
    ∧ Blake2s_192.merge a24 b24 = Blake2s_192.hash (a24 ++ b24) := by
  constructor
  · unfold Blake2s_256.merge Blake2s_256.hash
    rw [joinAll_pair]
  · unfold Blake2s_192.merge Blake2s_192.hash
    rw [joinAll_pair]

/-- Concrete instance of the C8 padding property: appending a zero byte to [1,2,3] changes
the Blake2s-256 digest (the universally quantified form of C8 is a cryptographic property
of BLAKE2s that is neither provable nor refutable deductively). -/
theorem hash_padding_concrete :
    Blake2s_256.hash [1, 2, 3] ≠ Blake2s_256.hash [1, 2, 3, 0] := by
  decide

/-- C9: deserializing the serialization of a ByteDigest yields the digest and leaves the
rest of the source; serializing a successful deserialization reproduces exactly the
consumed bytes; and a source shorter than N bytes fails with the wrong-byte-count error. -/
theorem spec_c9_serialization_roundtrip (N : Nat) (d rest : List Nat) (h : d.length = N) :
    ByteDigest.read_from N (ByteDigest.write_into d ++ rest) = Except.ok (d, rest)
    ∧ (∀ src out rem, ByteDigest.read_from N src = Except.ok (out, rem) →
        ByteDigest.write_into out ++ rem = src ∧ out.length = N)
    ∧ (∀ src : List Nat, src.length < N →
        ByteDigest.read_from N src = Except.error DeserializationError.unexpectedEOF) := by
  refine ⟨?_, ?_, ?_⟩
  · unfold ByteDigest.read_from read_u8_array ByteDigest.write_into
    have hle : N ≤ (d ++ rest).length := by simp [h]
    rw [if_pos hle, List.take_left' h, List.drop_left' h]
  · intro src out rem hok
    unfold ByteDigest.read_from read_u8_array at hok
    by_cases hle : N ≤ src.length
    · rw [if_pos hle] at hok
      injection hok with h1
      injection h1 with hout hrem
      subst hout
      subst hrem
      constructor
      · exact List.take_append_drop N src
      · simp [List.length_take, Nat.min_eq_left hle]
    · rw [if_neg hle] at hok
      exact absurd hok (by simp)
  · intro src hlt
    unfold ByteDigest.read_from read_u8_array
    rw [if_neg (by omega)]

/-- Witness for C9 at N = 2 with digest [5,6], trailing byte [7], and a short source. -/
theorem spec_c9_witness :
    ByteDigest.read_from 2 (ByteDigest.write_into [5, 6] ++ [7]) = Except.ok ([5, 6], [7])
    ∧ ByteDigest.write_into [5, 6] ++ [7] = [5, 6, 7]
    ∧ ByteDigest.read_from 2 [9] = Except.error DeserializationError.unexpectedEOF := by
  have h := spec_c9_serialization_roundtrip 2 [5, 6] [7] (by decide)
  exact ⟨h.1, (h.2.1 [5, 6, 7] [5, 6] [7] h.1).1, h.2.2 [9] (by decide)⟩
